import Mathlib

/-!
# Verification of the crop-extraction core of `pdfium_extract_assets.py`

This file gives a shallow embedding, over the rationals, of the pure
geometry and selection core of `src/server/scripts/pdfium_extract_assets.py`:
rectangle clamping, minimum-size enforcement, area shrinking,
intersection over union, text-line reconstruction from character boxes,
and the text-block / image crop selectors.  Python floats are modelled as
rationals; Python `int(...)` truncation, `round(...)` (round half to even)
and slicing are modelled explicitly.  The single irrational operation,
`math.sqrt`, is supplied as an explicit function parameter `sqrtQ`; none
of the proved properties depend on its values.

Whitespace handling (`re.sub` over `\s+` and `str.strip`) is modelled for
ASCII whitespace characters, which is faithful on the ASCII inputs the
properties quantify over.
-/

namespace PdfAssets

/-- Python `int(...)` applied to a real value: truncation toward zero. -/
def pyInt (q : ℚ) : ℤ :=
  if q < 0 then ⌈q⌉ else ⌊q⌋

/-- Python 3 `round(...)` on a real value: round half to even. -/
def pyRound (q : ℚ) : ℤ :=
  if q - ⌊q⌋ < 1/2 then ⌊q⌋
  else if 1/2 < q - ⌊q⌋ then ⌊q⌋ + 1
  else if 2 ∣ ⌊q⌋ then ⌊q⌋ else ⌊q⌋ + 1

/-- Python slicing `l[:n]`, including the negative-index case. -/
def pySlice {α : Type} (l : List α) (n : ℤ) : List α :=
  if 0 ≤ n then l.take n.toNat else l.take (l.length - (-n).toNat)

/-- A pixel-space axis-aligned rectangle, the dictionaries with keys
`x`, `y`, `width`, `height` used throughout the script. -/
structure Rect where
  x : ℚ
  y : ℚ
  width : ℚ
  height : ℚ
  deriving DecidableEq

/-- `clamp_bounds(bounds, page_width, page_height)` from the script:
floor the origin at 0, cap the far corner by the page size. -/
def clamp_bounds (bounds : Rect) (page_width page_height : ℤ) : Rect :=
  let x : ℤ := max 0 ⌊bounds.x⌋
  let y : ℤ := max 0 ⌊bounds.y⌋
  let max_x : ℤ := min page_width ⌈bounds.x + bounds.width⌉
  let max_y : ℤ := min page_height ⌈bounds.y + bounds.height⌉
  ⟨(x : ℚ), (y : ℚ), ((max 0 (max_x - x) : ℤ) : ℚ), ((max 0 (max_y - y) : ℤ) : ℚ)⟩

/-- `ensure_minimum_bounds_size` from the script.  The `none` case models
the Python `if not bounds:` branch for an absent rectangle. -/
def ensure_minimum_bounds_size (bounds : Option Rect) (min_width min_height : ℚ)
    (page_width page_height : ℤ) : Rect :=
  match bounds with
  | none => clamp_bounds ⟨0, 0, 0, 0⟩ page_width page_height
  | some b =>
    let xw : ℚ × ℚ :=
      if b.width < min_width then (b.x - (min_width - b.width) / 2, min_width)
      else (b.x, b.width)
    let yh : ℚ × ℚ :=
      if b.height < min_height then (b.y - (min_height - b.height) / 2, min_height)
      else (b.y, b.height)
    clamp_bounds ⟨xw.1, yh.1, xw.2, yh.2⟩ page_width page_height

/-- The shrink-to-target-area-share utility of the script (lines 60-82;
its Python name carries one further trailing word, dropped here).
`sqrtQ` stands for `math.sqrt`; the areas are floored at 1 exactly as
in the source. -/
def shrink_bounds_to_target_area (sqrtQ : ℚ → ℚ) (bounds : Rect)
    (page_width page_height : ℤ) (target_frac : ℚ) : Rect :=
  let page_area : ℚ := max 1 ((page_width : ℚ) * (page_height : ℚ))
  let target_area : ℚ := max 1 (page_area * target_frac)
  let current_area : ℚ := max 1 (bounds.width * bounds.height)
  if current_area ≤ target_area then clamp_bounds bounds page_width page_height
  else
    let scale : ℚ := sqrtQ (target_area / current_area)
    let target_width : ℚ := bounds.width * scale
    let target_height : ℚ := bounds.height * scale
    let center_x : ℚ := bounds.x + bounds.width / 2
    let center_y : ℚ := bounds.y + bounds.height / 2
    clamp_bounds
      ⟨center_x - target_width / 2, center_y - target_height / 2, target_width, target_height⟩
      page_width page_height

/-- `intersection_over_union(box_a, box_b)` from the script. -/
def intersection_over_union (box_a box_b : Rect) : ℚ :=
  let intersection_x := max box_a.x box_b.x
  let intersection_y := max box_a.y box_b.y
  let intersection_max_x := min (box_a.x + box_a.width) (box_b.x + box_b.width)
  let intersection_max_y := min (box_a.y + box_a.height) (box_b.y + box_b.height)
  let intersection_width := max 0 (intersection_max_x - intersection_x)
  let intersection_height := max 0 (intersection_max_y - intersection_y)
  let intersection_area := intersection_width * intersection_height
  if intersection_area ≤ 0 then 0
  else
    let area_a := box_a.width * box_a.height
    let area_b := box_b.width * box_b.height
    let union_area := area_a + area_b - intersection_area
    if union_area ≤ 0 then 0 else intersection_area / union_area

/-- `intersects_with_margin(text_bounds, crop_bounds, margin)` from the script. -/
def intersects_with_margin (text_bounds crop_bounds : Rect) (margin : ℚ) : Bool :=
  let crop_left := crop_bounds.x - margin
  let crop_top := crop_bounds.y - margin
  let crop_right := crop_bounds.x + crop_bounds.width + margin
  let crop_bottom := crop_bounds.y + crop_bounds.height + margin
  let text_left := text_bounds.x
  let text_top := text_bounds.y
  let text_right := text_bounds.x + text_bounds.width
  let text_bottom := text_bounds.y + text_bounds.height
  !(decide (text_right < crop_left) || decide (text_left > crop_right) ||
    decide (text_bottom < crop_top) || decide (text_top > crop_bottom))

/-- ASCII whitespace, the characters matched by the regex `\s` on the
ASCII plane. -/
def is_ws (c : Char) : Bool :=
  c == ' ' || c == '\t' || c == '\n' || c == '\x0b' || c == '\x0c' || c == '\r'

/-- One pass of `re.sub` over the pattern `\s+`: every maximal run of
whitespace becomes a single space character. -/
def collapse_ws : List Char → List Char
  | [] => []
  | [c] => if is_ws c then [' '] else [c]
  | a :: b :: rest =>
    if is_ws a && is_ws b then collapse_ws (b :: rest)
    else (if is_ws a then ' ' else a) :: collapse_ws (b :: rest)

/-- Python `str.strip()`: drop whitespace from both ends. -/
def strip_ws (l : List Char) : List Char :=
  (((l.dropWhile is_ws).reverse.dropWhile is_ws)).reverse

/-- `normalize_whitespace(value)` from the script, on an ASCII string
modelled as a character list. -/
def normalize_whitespace (value : List Char) : List Char :=
  if value = [] then [] else strip_ws (collapse_ws value)

/-- True for the characters kept by the regex class used in
`tokenize_for_score` after lowercasing. -/
def is_token_char (c : Char) : Bool :=
  ('a' ≤ c && c ≤ 'z') || ('0' ≤ c && c ≤ '9') || is_ws c

/-- `tokenize_for_score(value)` from the script: normalize, lowercase,
replace everything outside lowercase alphanumerics and whitespace by a
space, split on whitespace, keep tokens of length at least 3. -/
def tokenize_for_score (value : List Char) : List (List Char) :=
  let text := (normalize_whitespace value).map Char.toLower
  let text2 := text.map (fun c => if is_token_char c then c else ' ')
  (text2.splitOnP is_ws).filter (fun t => decide (3 ≤ t.length))

/-- One extracted character: a glyph string plus its pixel rectangle. -/
structure CharItem where
  text : List Char
  x : ℚ
  y : ℚ
  width : ℚ
  height : ℚ
  deriving DecidableEq

/-- A reconstructed text line: normalized text plus its pixel rectangle. -/
structure TextLine where
  text : List Char
  x : ℚ
  y : ℚ
  width : ℚ
  height : ℚ
  deriving DecidableEq

/-- Reading a `TextLine` as the rectangle its dictionary carries. -/
def TextLine.toRect (l : TextLine) : Rect := ⟨l.x, l.y, l.width, l.height⟩

/-- The sort key `(item["y"], item["x"])` used on characters, as a
lexicographic order. -/
def char_le (a b : CharItem) : Prop :=
  a.y < b.y ∨ (a.y = b.y ∧ a.x ≤ b.x)

instance : DecidableRel char_le := fun a b => by
  unfold char_le; infer_instance

/-- A line accumulator during clustering: its member characters in
arrival order, and the running mean of their vertical centers. -/
structure WorkLine where
  items : List CharItem
  center_y : ℚ

/-- One step of the clustering loop of `build_text_lines`: place a
character on the closest line whose running center is within
`line_gap`, or start a new line; joining a line updates its running
center to the mean of all member centers. -/
def assign_char (line_gap : ℤ) (lines : List WorkLine) (item : CharItem) : List WorkLine :=
  let center_y := item.y + item.height / 2
  let best :=
    lines.enum.foldl
      (fun acc p =>
        let delta := |p.2.center_y - center_y|
        match acc with
        | none => if delta ≤ (line_gap : ℚ) then some (p.1, delta) else none
        | some jd =>
          if delta ≤ (line_gap : ℚ) ∧ delta < jd.2 then some (p.1, delta) else some jd)
      none
  match best with
  | none => lines ++ [⟨[item], center_y⟩]
  | some jd =>
    lines.enum.map
      (fun p =>
        if p.1 = jd.1 then
          let items2 := p.2.items ++ [item]
          let centers := items2.map (fun entry => entry.y + entry.height / 2)
          ⟨items2, centers.sum / (centers.length : ℚ)⟩
        else p.2)

/-- Accumulator for the final per-line pass of `build_text_lines`. -/
structure LineAcc where
  min_x : ℚ
  min_y : ℚ
  max_x : ℚ
  max_y : ℚ
  pieces : List (List Char)
  prev : Option CharItem

/-- The body of the `for item in items` loop finishing one line:
extend the bounding box, and append the character text, preceded by a
space when the horizontal gap exceeds the width-adaptive threshold. -/
def line_step (s : LineAcc) (item : CharItem) : LineAcc :=
  let pieces2 :=
    match s.prev with
    | none => s.pieces ++ [item.text]
    | some p =>
      let gap := item.x - (p.x + p.width)
      let space_threshold := max (3/2) (min p.height item.height * (35/100))
      if gap > space_threshold ∧ p.text ≠ [' '] ∧ item.text ≠ [' ']
      then s.pieces ++ [[' '], item.text]
      else s.pieces ++ [item.text]
  ⟨min s.min_x item.x, min s.min_y item.y,
    max s.max_x (item.x + item.width), max s.max_y (item.y + item.height),
    pieces2, some item⟩

/-- Turn one accumulated line into a `TextLine`: sort members by `x`,
take the union rectangle (integer-truncated) and the joined normalized
text; a line whose normalized text is empty is dropped.  A `WorkLine`
always holds at least one item, so the `[]` branch is unreachable. -/
def finalize_line (line : WorkLine) : Option TextLine :=
  let items := List.insertionSort (fun a b => a.x ≤ b.x) line.items
  match items with
  | [] => none
  | first :: _ =>
    let st := items.foldl line_step
      ⟨first.x, first.y, first.x + first.width, first.y + first.height, [], none⟩
    let line_text := normalize_whitespace st.pieces.flatten
    if line_text = [] then none
    else
      some ⟨line_text, (pyInt st.min_x : ℚ), (pyInt st.min_y : ℚ),
        (pyInt (st.max_x - st.min_x) : ℚ), (pyInt (st.max_y - st.min_y) : ℚ)⟩

/-- Everything `build_text_lines` does after the initial sort: the
median-height line gap, the clustering fold, and the per-line
finishing pass. -/
def process_sorted (sorted_items : List CharItem) : List TextLine :=
  let heights := (sorted_items.filter (fun it => decide (0 < it.height))).map CharItem.height
  let median_height : ℚ :=
    if heights = [] then 12
    else (List.insertionSort (fun a b : ℚ => a ≤ b) heights).getD (heights.length / 2) 0
  let line_gap : ℤ := max 6 (min 20 (pyRound (median_height * (9/10))))
  let work := sorted_items.foldl (assign_char line_gap) []
  work.filterMap finalize_line

/-- `build_text_lines(char_items)` from the script. -/
def build_text_lines (char_items : List CharItem) : List TextLine :=
  if char_items = [] then []
  else process_sorted (List.insertionSort char_le char_items)

/-- A scored multi-line text-block candidate. -/
structure TextCropCandidate where
  bounds : Rect
  contextText : List Char
  score : ℚ
  deriving DecidableEq

/-- `token_set.update(...)`: fold new tokens into the accumulated set,
represented as a duplicate-free list (only its size is ever used). -/
def insert_tokens (acc : List (List Char)) (toks : List (List Char)) : List (List Char) :=
  toks.foldl (fun a t => if t ∈ a then a else a ++ [t]) acc

/-- Running union box of the lines of a window. -/
structure Box4 where
  min_x : ℚ
  min_y : ℚ
  max_x : ℚ
  max_y : ℚ

/-- State of the inner window-growing loop of
`select_text_crop_candidates`: the accumulated combined text, token
set, union box (absent before the first line), and the raw candidates
emitted so far. -/
structure WindowAcc where
  combined : List Char
  tokens : List (List Char)
  box : Option Box4
  found : List TextCropCandidate

/-- The raw candidates generated by the window sweep of
`select_text_crop_candidates` for one start index. -/
def text_window_candidates (page_width page_height : ℤ)
    (text_block_padding_px min_crop_edge_px min_text_block_height_px : ℚ)
    (min_text_block_char_length min_text_lines_per_block max_text_lines_per_block : ℤ)
    (max_context_length : ℤ) (page_area : ℚ)
    (text_lines : List TextLine) (start_index : ℕ) : List TextCropCandidate :=
  let max_end : ℤ := min (text_lines.length : ℤ) ((start_index : ℤ) + max_text_lines_per_block)
  let idxs := List.range' start_index (max_end - (start_index : ℤ)).toNat
  let final := idxs.foldl
    (fun (st : WindowAcc) i =>
      let line := text_lines.getD i ⟨[], 0, 0, 0, 0⟩
      let combined := normalize_whitespace (st.combined ++ ' ' :: line.text)
      let tokens := insert_tokens st.tokens (tokenize_for_score line.text)
      let bx : Box4 :=
        match st.box with
        | none => ⟨line.x, line.y, line.x + line.width, line.y + line.height⟩
        | some b =>
          ⟨min b.min_x line.x, min b.min_y line.y,
            max b.max_x (line.x + line.width), max b.max_y (line.y + line.height)⟩
      let line_count : ℤ := (i : ℤ) - (start_index : ℤ) + 1
      let found2 :=
        if line_count < min_text_lines_per_block ∨
            (combined.length : ℤ) < min_text_block_char_length then st.found
        else
          let expanded := clamp_bounds
            ⟨bx.min_x - text_block_padding_px, bx.min_y - text_block_padding_px,
              (bx.max_x - bx.min_x) + text_block_padding_px * 2,
              (bx.max_y - bx.min_y) + text_block_padding_px * 2⟩
            page_width page_height
          let area := expanded.width * expanded.height
          if expanded.width < min_crop_edge_px ∨ expanded.height < min_text_block_height_px ∨
              area < page_area * (4/1000) ∨ area > page_area * (68/100) then st.found
          else
            let score := (tokens.length : ℚ) * 2 + ((min 200 (combined.length : ℤ) : ℤ) : ℚ) * (7/100)
            st.found ++ [⟨expanded, pySlice combined max_context_length, score⟩]
      ⟨combined, tokens, some bx, found2⟩)
    ⟨[], [], none, []⟩
  final.found

/-- All raw candidates of the double window sweep, in emission order. -/
def raw_text_candidates (page_width page_height : ℤ)
    (text_block_padding_px min_crop_edge_px min_text_block_height_px : ℚ)
    (min_text_block_char_length min_text_lines_per_block max_text_lines_per_block : ℤ)
    (max_context_length : ℤ) (page_area : ℚ)
    (text_lines : List TextLine) : List TextCropCandidate :=
  ((List.range text_lines.length).map
    (text_window_candidates page_width page_height text_block_padding_px min_crop_edge_px
      min_text_block_height_px min_text_block_char_length min_text_lines_per_block
      max_text_lines_per_block max_context_length page_area text_lines)).flatten

/-- The greedy suppression loop shared by both selectors: walk the
sorted candidates, accept one unless it overlaps an accepted one, and
break as soon as the accepted count has reached `max_count` (the check
runs after the acceptance, exactly as in the source). -/
def greedy_select {α : Type} (overlaps : α → α → Bool) (max_count : ℤ) :
    List α → List α → List α
  | acc, [] => acc
  | acc, c :: rest =>
    let acc2 := if acc.any (fun e => overlaps e c) then acc else acc ++ [c]
    if max_count ≤ (acc2.length : ℤ) then acc2
    else greedy_select overlaps max_count acc2 rest

/-- The descending-score order used to sort text candidates. -/
def score_ge (a b : TextCropCandidate) : Prop := b.score ≤ a.score

instance : DecidableRel score_ge := fun a b => by
  unfold score_ge; infer_instance

/-- The descending-area order used to sort image rectangles. -/
def image_area_ge (a b : Rect) : Prop := b.width * b.height ≤ a.width * a.height

instance : DecidableRel image_area_ge := fun a b => by
  unfold image_area_ge; infer_instance

/-- Overlap suppression test for text candidates: IoU above `0.72`. -/
def text_overlaps (e c : TextCropCandidate) : Bool :=
  decide ((72/100 : ℚ) < intersection_over_union e.bounds c.bounds)

/-- The single-line fallback of `select_text_crop_candidates` (lines
322-348 of the script): expand the longest line, enforce the minimum
block size, and accept it when its area reaches `0.002` of the page. -/
def text_fallback (page_width page_height : ℤ)
    (text_block_padding_px min_crop_edge_px min_text_block_height_px : ℚ)
    (max_context_length : ℤ) (page_area : ℚ)
    (text_lines : List TextLine) : Option TextCropCandidate :=
  match text_lines with
  | [] => none
  | first :: rest =>
    let best_line := rest.foldl
      (fun best l => if best.text.length < l.text.length then l else best) first
    let expanded := ensure_minimum_bounds_size
      (some (clamp_bounds
        ⟨best_line.x - text_block_padding_px * 2, best_line.y - text_block_padding_px * 2,
          best_line.width + text_block_padding_px * 4,
          best_line.height + text_block_padding_px * 4⟩
        page_width page_height))
      min_crop_edge_px ((max 56 (pyInt (min_text_block_height_px * (7/10))) : ℤ) : ℚ)
      page_width page_height
    let area := expanded.width * expanded.height
    if area ≥ page_area * (2/1000) then
      some ⟨expanded, pySlice (normalize_whitespace best_line.text) max_context_length,
        max 1 ((best_line.text.length : ℚ) * (2/10))⟩
    else none

/-- `select_text_crop_candidates(...)` from the script. -/
def select_text_crop_candidates (text_lines : List TextLine) (page_width page_height : ℤ)
    (max_text_crops_per_page : ℤ)
    (text_block_padding_px min_crop_edge_px min_text_block_height_px : ℚ)
    (min_text_block_char_length min_text_lines_per_block max_text_lines_per_block : ℤ)
    (max_context_length : ℤ) : List TextCropCandidate :=
  let page_area : ℚ := max 1 ((page_width : ℚ) * (page_height : ℚ))
  let raw := raw_text_candidates page_width page_height text_block_padding_px min_crop_edge_px
    min_text_block_height_px min_text_block_char_length min_text_lines_per_block
    max_text_lines_per_block max_context_length page_area text_lines
  let sorted := List.insertionSort score_ge raw
  let selected := greedy_select text_overlaps max_text_crops_per_page [] sorted
  if selected.isEmpty && !text_lines.isEmpty then
    selected ++ (text_fallback page_width page_height text_block_padding_px min_crop_edge_px
      min_text_block_height_px max_context_length page_area text_lines).toList
  else selected

/-- Overlap suppression test for image rectangles: IoU above `0.85`. -/
def image_overlaps (e c : Rect) : Bool :=
  decide ((85/100 : ℚ) < intersection_over_union e c)

/-- The per-rectangle filter of `select_image_crop_boxes`: minimum
edge, area share within bounds, and non-degenerate aspect. -/
def image_box_passes (page_area : ℚ) (min_crop_edge_px min_area_frac max_area_frac : ℚ)
    (c : Rect) : Bool :=
  let area := c.width * c.height
  let aspect := c.width / max 1 c.height
  decide (¬ (c.width < min_crop_edge_px ∨ c.height < min_crop_edge_px) ∧
    ¬ (area < page_area * min_area_frac) ∧ ¬ (area > page_area * max_area_frac) ∧
    ¬ (aspect ≤ 15/100 ∨ aspect ≥ 13/2))

/-- The clamped rectangles of `select_image_crop_boxes` that survive
its filter, before the area sort. -/
def image_filtered_boxes (raw_bounds : List Rect) (page_width page_height : ℤ)
    (min_crop_edge_px min_area_frac max_area_frac : ℚ) (page_area : ℚ) : List Rect :=
  ((raw_bounds.map (fun b => clamp_bounds b page_width page_height)).filter
    (image_box_passes page_area min_crop_edge_px min_area_frac max_area_frac))

/-- The near-full-page fallback of `select_image_crop_boxes` (lines
384-407 of the script): take the largest clamped rectangle, shrink it
to the fixed `0.62` area share when oversized, enforce the minimum
edge, and accept it when it still reaches the minimum area share. -/
def image_fallback (sqrtQ : ℚ → ℚ) (page_width page_height : ℤ)
    (min_crop_edge_px min_area_frac max_area_frac : ℚ) (page_area : ℚ)
    (normalized : List Rect) : Option Rect :=
  match List.insertionSort image_area_ge normalized with
  | [] => none
  | fb0 :: _ =>
    let fb1 :=
      if fb0.width * fb0.height > page_area * max_area_frac then
        shrink_bounds_to_target_area sqrtQ fb0 page_width page_height (62/100)
      else fb0
    let fb2 := ensure_minimum_bounds_size (some fb1) min_crop_edge_px min_crop_edge_px
      page_width page_height
    if fb2.width * fb2.height ≥ page_area * min_area_frac then some fb2 else none

/-- `select_image_crop_boxes(...)` from the script. -/
def select_image_crop_boxes (sqrtQ : ℚ → ℚ) (raw_bounds : List Rect)
    (page_width page_height : ℤ)
    (min_crop_edge_px min_area_frac max_area_frac : ℚ)
    (max_crops_per_page : ℤ) : List Rect :=
  let page_area : ℚ := max 1 ((page_width : ℚ) * (page_height : ℚ))
  let normalized := raw_bounds.map (fun b => clamp_bounds b page_width page_height)
  let filtered := normalized.filter
    (image_box_passes page_area min_crop_edge_px min_area_frac max_area_frac)
  let sorted := List.insertionSort image_area_ge filtered
  let selected := greedy_select image_overlaps max_crops_per_page [] sorted
  if selected.isEmpty && !normalized.isEmpty then
    selected ++ (image_fallback sqrtQ page_width page_height min_crop_edge_px min_area_frac
      max_area_frac page_area normalized).toList
  else selected

/-- Division with an explicit zero-denominator check, used by the
checked variants of the geometry functions: Python raises
`ZeroDivisionError` where this returns `none`. -/
def qdiv (a b : ℚ) : Option ℚ :=
  if b = 0 then none else some (a / b)

/-- Square root with an explicit negative-argument check: Python
`math.sqrt` raises on negative input where this returns `none`. -/
def qsqrt (sqrtQ : ℚ → ℚ) (a : ℚ) : Option ℚ :=
  if a < 0 then none else some (sqrtQ a)

/-- `ensure_minimum_bounds_size` with every division checked. -/
def checked_ensure_minimum_bounds_size (bounds : Option Rect) (min_width min_height : ℚ)
    (page_width page_height : ℤ) : Option Rect :=
  match bounds with
  | none => some (clamp_bounds ⟨0, 0, 0, 0⟩ page_width page_height)
  | some b => do
    let xw ←
      if b.width < min_width then
        (qdiv (min_width - b.width) 2).map (fun g => (b.x - g, min_width))
      else some (b.x, b.width)
    let yh ←
      if b.height < min_height then
        (qdiv (min_height - b.height) 2).map (fun g => (b.y - g, min_height))
      else some (b.y, b.height)
    some (clamp_bounds ⟨xw.1, yh.1, xw.2, yh.2⟩ page_width page_height)

/-- The shrink utility with every division and the square root
checked. -/
def checked_shrink_bounds_to_target_area (sqrtQ : ℚ → ℚ) (bounds : Rect)
    (page_width page_height : ℤ) (target_frac : ℚ) : Option Rect :=
  let page_area : ℚ := max 1 ((page_width : ℚ) * (page_height : ℚ))
  let target_area : ℚ := max 1 (page_area * target_frac)
  let current_area : ℚ := max 1 (bounds.width * bounds.height)
  if current_area ≤ target_area then some (clamp_bounds bounds page_width page_height)
  else do
    let q ← qdiv target_area current_area
    let scale ← qsqrt sqrtQ q
    let target_width := bounds.width * scale
    let target_height := bounds.height * scale
    let cx2 ← qdiv bounds.width 2
    let cy2 ← qdiv bounds.height 2
    let tw2 ← qdiv target_width 2
    let th2 ← qdiv target_height 2
    some (clamp_bounds
      ⟨bounds.x + cx2 - tw2, bounds.y + cy2 - th2, target_width, target_height⟩
      page_width page_height)

/-- `intersection_over_union` with its division checked. -/
def checked_intersection_over_union (box_a box_b : Rect) : Option ℚ :=
  let intersection_x := max box_a.x box_b.x
  let intersection_y := max box_a.y box_b.y
  let intersection_max_x := min (box_a.x + box_a.width) (box_b.x + box_b.width)
  let intersection_max_y := min (box_a.y + box_a.height) (box_b.y + box_b.height)
  let intersection_width := max 0 (intersection_max_x - intersection_x)
  let intersection_height := max 0 (intersection_max_y - intersection_y)
  let intersection_area := intersection_width * intersection_height
  if intersection_area ≤ 0 then some 0
  else
    let area_a := box_a.width * box_a.height
    let area_b := box_b.width * box_b.height
    let union_area := area_a + area_b - intersection_area
    if union_area ≤ 0 then some 0 else qdiv intersection_area union_area

/-- The intersection area computed inside `intersection_over_union`. -/
def intersection_area (a b : Rect) : ℚ :=
  max 0 (min (a.x + a.width) (b.x + b.width) - max a.x b.x) *
    max 0 (min (a.y + a.height) (b.y + b.height) - max a.y b.y)

/-- The union area computed inside `intersection_over_union`. -/
def union_area (a b : Rect) : ℚ :=
  a.width * a.height + b.width * b.height - intersection_area a b

/-- Evaluating `clamp_bounds` on integer-valued rectangles. -/
theorem clamp_bounds_intCast (x y w h W H : ℤ) :
    clamp_bounds ⟨(x : ℚ), (y : ℚ), (w : ℚ), (h : ℚ)⟩ W H =
      ⟨((max 0 x : ℤ) : ℚ), ((max 0 y : ℤ) : ℚ),
        ((max 0 (min W (x + w) - max 0 x) : ℤ) : ℚ),
        ((max 0 (min H (y + h) - max 0 y) : ℤ) : ℚ)⟩ := by
  simp only [clamp_bounds, ← Int.cast_add, Int.floor_intCast, Int.ceil_intCast]

/-- A rectangle of the shape produced by `clamp_bounds` is left fixed
by a further application of `clamp_bounds`. -/
theorem clamp_bounds_fixed (a b v w W H : ℤ) (hv : v ≤ W) (hw : w ≤ H)
    (ha : 0 ≤ a) (hb : 0 ≤ b) :
    clamp_bounds
        ⟨(a : ℚ), (b : ℚ), ((max 0 (v - a) : ℤ) : ℚ), ((max 0 (w - b) : ℤ) : ℚ)⟩ W H =
      ⟨(a : ℚ), (b : ℚ), ((max 0 (v - a) : ℤ) : ℚ), ((max 0 (w - b) : ℤ) : ℚ)⟩ := by
  rw [clamp_bounds_intCast]
  simp only [Rect.mk.injEq]
  refine ⟨?_, ?_, ?_, ?_⟩ <;> (norm_cast; omega)

/-- C1: the containment claim, amended.  Unconditionally — for every
input rectangle, including off-page and degenerate ones, and every
page size — the clamped rectangle has a nonnegative origin and
nonnegative size.  The far-edge bounds `x + width ≤ W` and
`y + height ≤ H` each hold under the additional hypothesis that the
corresponding clamped origin coordinate lies within the page
(`max 0 ⌊x⌋ ≤ W`, respectively `max 0 ⌊y⌋ ≤ H`), which the
counterexample shows is necessary. -/
theorem clamp_bounds_containment (r : Rect) (W H : ℤ) :
    (0 ≤ (clamp_bounds r W H).x ∧ 0 ≤ (clamp_bounds r W H).y ∧
      0 ≤ (clamp_bounds r W H).width ∧ 0 ≤ (clamp_bounds r W H).height) ∧
      (max 0 ⌊r.x⌋ ≤ W →
        (clamp_bounds r W H).x + (clamp_bounds r W H).width ≤ (W : ℚ)) ∧
      (max 0 ⌊r.y⌋ ≤ H →
        (clamp_bounds r W H).y + (clamp_bounds r W H).height ≤ (H : ℚ)) := by
  simp only [clamp_bounds]
  refine ⟨⟨?_, ?_, ?_, ?_⟩, ?_, ?_⟩
  · exact_mod_cast le_max_left 0 ⌊r.x⌋
  · exact_mod_cast le_max_left 0 ⌊r.y⌋
  · exact_mod_cast le_max_left 0 (min W ⌈r.x + r.width⌉ - max 0 ⌊r.x⌋)
  · exact_mod_cast le_max_left 0 (min H ⌈r.y + r.height⌉ - max 0 ⌊r.y⌋)
  · intro hx
    exact_mod_cast
      (show max 0 ⌊r.x⌋ + max 0 (min W ⌈r.x + r.width⌉ - max 0 ⌊r.x⌋) ≤ W by omega)
  · intro hy
    exact_mod_cast
      (show max 0 ⌊r.y⌋ + max 0 (min H ⌈r.y + r.height⌉ - max 0 ⌊r.y⌋) ≤ H by omega)

unseal Rat.add Rat.mul Rat.inv Rat.sub in
/-- C1, counterexample: the rectangle `(x, y, w, h) = (100, 0, 5, 5)`
on a 10 by 10 page is clamped to origin `(100, 0)` with width 0, so
`x + width = 100` exceeds the page width 10: the claim is false for a
rectangle lying beyond the page edge. -/
theorem clamp_bounds_containment_counterexample :
    ¬ ((clamp_bounds ⟨100, 0, 5, 5⟩ 10 10).x +
        (clamp_bounds ⟨100, 0, 5, 5⟩ 10 10).width ≤ (10 : ℚ)) := by
  decide

unseal Rat.add Rat.mul Rat.inv Rat.sub in
/-- C1, witness: the amended theorem applied to the rectangle
`(5, 5, 20, 20)` on a 100 by 100 page, with the far-edge hypotheses
discharged concretely. -/
theorem clamp_bounds_containment_witness :
    (0 ≤ (clamp_bounds ⟨5, 5, 20, 20⟩ 100 100).x ∧
      0 ≤ (clamp_bounds ⟨5, 5, 20, 20⟩ 100 100).y ∧
      0 ≤ (clamp_bounds ⟨5, 5, 20, 20⟩ 100 100).width ∧
      0 ≤ (clamp_bounds ⟨5, 5, 20, 20⟩ 100 100).height) ∧
      (clamp_bounds ⟨5, 5, 20, 20⟩ 100 100).x +
        (clamp_bounds ⟨5, 5, 20, 20⟩ 100 100).width ≤ (100 : ℚ) ∧
      (clamp_bounds ⟨5, 5, 20, 20⟩ 100 100).y +
        (clamp_bounds ⟨5, 5, 20, 20⟩ 100 100).height ≤ (100 : ℚ) :=
  ⟨(clamp_bounds_containment ⟨5, 5, 20, 20⟩ 100 100).1,
    (clamp_bounds_containment ⟨5, 5, 20, 20⟩ 100 100).2.1 (by decide),
    (clamp_bounds_containment ⟨5, 5, 20, 20⟩ 100 100).2.2 (by decide)⟩

/-- C5: `clamp_bounds` is idempotent, for every rectangle and every
pair of page dimensions, including degenerate ones. -/
theorem clamp_bounds_idempotent (r : Rect) (W H : ℤ) :
    clamp_bounds (clamp_bounds r W H) W H = clamp_bounds r W H := by
  show clamp_bounds
      ⟨((max 0 ⌊r.x⌋ : ℤ) : ℚ), ((max 0 ⌊r.y⌋ : ℤ) : ℚ),
        ((max 0 (min W ⌈r.x + r.width⌉ - max 0 ⌊r.x⌋) : ℤ) : ℚ),
        ((max 0 (min H ⌈r.y + r.height⌉ - max 0 ⌊r.y⌋) : ℤ) : ℚ)⟩ W H = _
  exact clamp_bounds_fixed _ _ _ _ W H (min_le_left _ _) (min_le_left _ _)
    (le_max_left _ _) (le_max_left _ _)

/-- `intersection_over_union` restated through the named area helpers;
this is definitional. -/
theorem intersection_over_union_eq (a b : Rect) :
    intersection_over_union a b =
      if intersection_area a b ≤ 0 then 0
      else if union_area a b ≤ 0 then 0
      else intersection_area a b / union_area a b := rfl

theorem intersection_area_comm (a b : Rect) :
    intersection_area a b = intersection_area b a := by
  unfold intersection_area
  rw [max_comm a.x b.x, max_comm a.y b.y, min_comm (a.x + a.width) (b.x + b.width),
    min_comm (a.y + a.height) (b.y + b.height)]

theorem union_area_comm (a b : Rect) : union_area a b = union_area b a := by
  unfold union_area
  rw [intersection_area_comm, add_comm (a.width * a.height) (b.width * b.height)]

theorem intersection_area_nonneg (a b : Rect) : 0 ≤ intersection_area a b :=
  mul_nonneg (le_max_left _ _) (le_max_left _ _)

/-- A positive intersection area is bounded by either rectangle area. -/
theorem intersection_area_le_areas (a b : Rect) (h : 0 < intersection_area a b) :
    intersection_area a b ≤ a.width * a.height ∧
      intersection_area a b ≤ b.width * b.height := by
  unfold intersection_area at h ⊢
  set tx := min (a.x + a.width) (b.x + b.width) - max a.x b.x with htx
  set ty := min (a.y + a.height) (b.y + b.height) - max a.y b.y with hty
  have hx : 0 < max 0 tx := by
    rcases mul_pos_iff.mp h with ⟨h1, _⟩ | ⟨h1, _⟩
    · exact h1
    · exact absurd h1 (not_lt.mpr (le_max_left _ _))
  have hy : 0 < max 0 ty := by
    rcases mul_pos_iff.mp h with ⟨_, h2⟩ | ⟨_, h2⟩
    · exact h2
    · exact absurd h2 (not_lt.mpr (le_max_left _ _))
  have htxp : 0 < tx := by
    rcases lt_max_iff.mp hx with h1 | h1
    · exact absurd h1 (lt_irrefl 0)
    · exact h1
  have htyp : 0 < ty := by
    rcases lt_max_iff.mp hy with h1 | h1
    · exact absurd h1 (lt_irrefl 0)
    · exact h1
  rw [max_eq_right htxp.le, max_eq_right htyp.le]
  have hxa : tx ≤ a.width := by
    have h1 : min (a.x + a.width) (b.x + b.width) ≤ a.x + a.width := min_le_left _ _
    have h2 : a.x ≤ max a.x b.x := le_max_left _ _
    rw [htx]; linarith
  have hxb : tx ≤ b.width := by
    have h1 : min (a.x + a.width) (b.x + b.width) ≤ b.x + b.width := min_le_right _ _
    have h2 : b.x ≤ max a.x b.x := le_max_right _ _
    rw [htx]; linarith
  have hya : ty ≤ a.height := by
    have h1 : min (a.y + a.height) (b.y + b.height) ≤ a.y + a.height := min_le_left _ _
    have h2 : a.y ≤ max a.y b.y := le_max_left _ _
    rw [hty]; linarith
  have hyb : ty ≤ b.height := by
    have h1 : min (a.y + a.height) (b.y + b.height) ≤ b.y + b.height := min_le_right _ _
    have h2 : b.y ≤ max a.y b.y := le_max_right _ _
    rw [hty]; linarith
  constructor
  · exact mul_le_mul hxa hya htyp.le (htxp.le.trans hxa)
  · exact mul_le_mul hxb hyb htyp.le (htxp.le.trans hxb)

/-- C6: `intersection_over_union` is symmetric, always lies in the
interval from 0 to 1, and equals 1 on a rectangle of positive width
and height compared with itself. -/
theorem intersection_over_union_props (a b : Rect) :
    intersection_over_union a b = intersection_over_union b a ∧
      0 ≤ intersection_over_union a b ∧ intersection_over_union a b ≤ 1 ∧
      (0 < a.width → 0 < a.height → intersection_over_union a a = 1) := by
  refine ⟨?_, ?_, ?_, ?_⟩
  · rw [intersection_over_union_eq, intersection_over_union_eq,
      intersection_area_comm, union_area_comm]
  · rw [intersection_over_union_eq]
    split_ifs with h1 h2
    · exact le_refl 0
    · exact le_refl 0
    · exact div_nonneg (intersection_area_nonneg a b) (not_le.mp h2).le
  · rw [intersection_over_union_eq]
    split_ifs with h1 h2
    · exact zero_le_one
    · exact zero_le_one
    · rw [div_le_one (not_le.mp h2)]
      have hb := (intersection_area_le_areas a b (not_le.mp h1)).2
      unfold union_area
      have ha := (intersection_area_le_areas a b (not_le.mp h1)).1
      linarith
  · intro hw hh
    have hself : intersection_area a a = a.width * a.height := by
      unfold intersection_area
      rw [min_self, max_self, min_self, max_self, add_sub_cancel_left,
        add_sub_cancel_left, max_eq_right hw.le, max_eq_right hh.le]
    have hpos : 0 < a.width * a.height := mul_pos hw hh
    have huni : union_area a a = a.width * a.height := by
      unfold union_area; rw [hself]; ring
    rw [intersection_over_union_eq, hself, huni, if_neg (not_le.mpr hpos),
      if_neg (not_le.mpr hpos)]
    exact div_self (ne_of_gt hpos)

unseal Rat.add Rat.mul Rat.inv Rat.sub in
/-- C6, witness: the theorem applied to two concrete rectangles, with
the positive-size hypotheses of the self-over-self part discharged for
the rectangle `(0, 0, 4, 3)`. -/
theorem intersection_over_union_props_witness :
    intersection_over_union ⟨0, 0, 4, 3⟩ ⟨2, 1, 4, 3⟩ =
        intersection_over_union ⟨2, 1, 4, 3⟩ ⟨0, 0, 4, 3⟩ ∧
      intersection_over_union ⟨0, 0, 4, 3⟩ ⟨0, 0, 4, 3⟩ = 1 := by
  refine ⟨(intersection_over_union_props ⟨0, 0, 4, 3⟩ ⟨2, 1, 4, 3⟩).1, ?_⟩
  exact (intersection_over_union_props ⟨0, 0, 4, 3⟩ ⟨2, 1, 4, 3⟩).2.2.2
    (by decide) (by decide)

/-- C8: the geometry functions are total.  The checked variants, which
return `none` exactly where Python would raise (`ZeroDivisionError`, or
`math.sqrt` of a negative), always return `some` of the plain result:
the floor-at-1 guards of the shrink utility keep its divisor and square
root argument safe, and `intersection_over_union` divides only after
its non-positivity guards, returning 0 whenever the intersection or
union area is non-positive. -/
theorem geometry_total :
    (∀ (b : Option Rect) (min_w min_h : ℚ) (W H : ℤ),
        checked_ensure_minimum_bounds_size b min_w min_h W H =
          some (ensure_minimum_bounds_size b min_w min_h W H)) ∧
      (∀ (sq : ℚ → ℚ) (r : Rect) (W H : ℤ) (f : ℚ),
        checked_shrink_bounds_to_target_area sq r W H f =
          some (shrink_bounds_to_target_area sq r W H f)) ∧
      (∀ a b : Rect,
        checked_intersection_over_union a b = some (intersection_over_union a b)) ∧
      (∀ a b : Rect, intersection_area a b ≤ 0 ∨ union_area a b ≤ 0 →
        intersection_over_union a b = 0) := by
  refine ⟨?_, ?_, ?_, ?_⟩
  · intro b min_w min_h W H
    cases b with
    | none => rfl
    | some rb =>
      simp only [checked_ensure_minimum_bounds_size, ensure_minimum_bounds_size, qdiv,
        if_neg (show ¬ ((2 : ℚ) = 0) by norm_num)]
      split_ifs <;> rfl
  · intro sq r W H f
    simp only [checked_shrink_bounds_to_target_area, shrink_bounds_to_target_area]
    split_ifs with h
    · rfl
    · have hc : (max 1 (r.width * r.height) : ℚ) ≠ 0 :=
        ne_of_gt (lt_max_iff.mpr (Or.inl one_pos))
      have hq : ¬ (max 1 (max 1 ((W : ℚ) * (H : ℚ)) * f) / max 1 (r.width * r.height) < 0) :=
        not_lt.mpr (div_nonneg (le_trans zero_le_one (le_max_left _ _))
          (le_trans zero_le_one (le_max_left _ _)))
      simp [qdiv, qsqrt, hc, hq]
  · intro a b
    simp only [checked_intersection_over_union, intersection_over_union]
    split_ifs with h1 h2
    · rfl
    · rfl
    · simp [qdiv, (not_le.mp h2).ne.symm]
  · intro a b h
    rw [intersection_over_union_eq]
    split_ifs with h1 h2
    · rfl
    · rfl
    · rcases h with h | h
      · exact absurd h h1
      · exact absurd h h2

unseal Rat.add Rat.mul Rat.inv Rat.sub in
/-- C8, witness: the guarded-zero conjunct applied to two disjoint unit
squares, whose intersection area is zero. -/
theorem geometry_total_witness :
    intersection_over_union ⟨0, 0, 1, 1⟩ ⟨5, 5, 1, 1⟩ = 0 :=
  geometry_total.2.2.2 ⟨0, 0, 1, 1⟩ ⟨5, 5, 1, 1⟩ (Or.inl (by decide))

/-- The head surviving `dropWhile` fails the predicate. -/
theorem dropWhile_head_false {α : Type} (p : α → Bool) :
    ∀ (l : List α) (c : α), (l.dropWhile p).head? = some c → p c = false := by
  intro l
  induction l with
  | nil => intro c hc; cases hc
  | cons a t ih =>
    intro c hc
    cases hp : p a with
    | true => rw [List.dropWhile_cons_of_pos hp] at hc; exact ih c hc
    | false =>
      rw [List.dropWhile_cons_of_neg (by simp [hp])] at hc
      cases hc; exact hp

/-- `dropWhile` is the identity when the head already fails the
predicate. -/
theorem dropWhile_eq_self_of_head {α : Type} (p : α → Bool) (l : List α)
    (h : ∀ c, l.head? = some c → p c = false) : l.dropWhile p = l := by
  cases l with
  | nil => rfl
  | cons a t => exact List.dropWhile_cons_of_neg (by simp [h a rfl])

/-- `dropWhile` removes a prefix: the input is that prefix followed by
the output. -/
theorem exists_append_dropWhile {α : Type} (p : α → Bool) :
    ∀ l : List α, ∃ pre, l = pre ++ l.dropWhile p := by
  intro l
  induction l with
  | nil => exact ⟨[], rfl⟩
  | cons a t ih =>
    cases hp : p a with
    | true =>
      obtain ⟨pre, he⟩ := ih
      exact ⟨a :: pre, by rw [List.dropWhile_cons_of_pos hp, List.cons_append, ← he]⟩
    | false =>
      refine ⟨[], ?_⟩
      rw [List.dropWhile_cons_of_neg (by simp [hp])]
      rfl

/-- No two adjacent whitespace characters. -/
def no_adjacent_ws (l : List Char) : Prop :=
  List.Chain' (fun a b => ¬ (is_ws a = true ∧ is_ws b = true)) l

/-- Every whitespace character is a plain space. -/
def all_ws_space (l : List Char) : Prop :=
  ∀ c ∈ l, is_ws c = true → c = ' '

/-- The head of a collapsed nonempty list. -/
theorem collapse_ws_head (rest : List Char) :
    ∀ b : Char, (collapse_ws (b :: rest)).head? = some (if is_ws b then ' ' else b) := by
  induction rest with
  | nil => intro b; cases hb : is_ws b <;> simp [collapse_ws, hb]
  | cons c rs ih =>
    intro b
    cases hb : is_ws b <;> cases hc : is_ws c <;>
      simp [collapse_ws, hb, hc, ih c]

/-- Collapsing leaves no two adjacent whitespace characters. -/
theorem collapse_ws_no_adjacent : ∀ l : List Char, no_adjacent_ws (collapse_ws l) := by
  intro l
  induction l with
  | nil => exact List.chain'_nil
  | cons a tail ih =>
    cases tail with
    | nil =>
      cases ha : is_ws a <;> simp [collapse_ws, ha, no_adjacent_ws]
    | cons b rest =>
      cases hab : (is_ws a && is_ws b) with
      | true =>
        have : collapse_ws (a :: b :: rest) = collapse_ws (b :: rest) := by
          simp [collapse_ws, hab]
        rw [no_adjacent_ws, this]; exact ih
      | false =>
        have : collapse_ws (a :: b :: rest) =
            (if is_ws a then ' ' else a) :: collapse_ws (b :: rest) := by
          simp [collapse_ws, hab]
        rw [no_adjacent_ws, this]
        refine List.chain'_cons'.mpr ⟨?_, ih⟩
        intro y hy
        rw [collapse_ws_head rest b] at hy
        cases hy
        cases ha : is_ws a with
        | true =>
          have hb : is_ws b = false := by
            cases hb : is_ws b
            · rfl
            · rw [ha, hb] at hab; cases hab
          simp [ha, hb]
        | false => simp [ha]

/-- After collapsing, every whitespace character is a plain space. -/
theorem collapse_ws_all_space : ∀ l : List Char, all_ws_space (collapse_ws l) := by
  intro l
  induction l with
  | nil => intro c hc; cases hc
  | cons a tail ih =>
    cases tail with
    | nil =>
      intro c hc hw
      cases ha : is_ws a with
      | true =>
        have he : collapse_ws [a] = [' '] := by simp [collapse_ws, ha]
        rw [he] at hc
        exact List.mem_singleton.mp hc
      | false =>
        have he : collapse_ws [a] = [a] := by simp [collapse_ws, ha]
        rw [he] at hc
        have hca := List.mem_singleton.mp hc
        subst hca; rw [ha] at hw; cases hw
    | cons b rest =>
      cases hab : (is_ws a && is_ws b) with
      | true =>
        have he : collapse_ws (a :: b :: rest) = collapse_ws (b :: rest) := by
          simp [collapse_ws, hab]
        rw [he]; exact ih
      | false =>
        have he : collapse_ws (a :: b :: rest) =
            (if is_ws a then ' ' else a) :: collapse_ws (b :: rest) := by
          simp [collapse_ws, hab]
        rw [he]
        intro c hc hw
        rcases List.mem_cons.mp hc with hc | hc
        · subst hc
          cases ha : is_ws a <;> simp [ha] at hw ⊢
        · exact ih c hc hw

/-- Collapsing is the identity on lists already in collapsed form. -/
theorem collapse_ws_eq_self : ∀ l : List Char, no_adjacent_ws l → all_ws_space l →
    collapse_ws l = l := by
  intro l
  induction l with
  | nil => intro _ _; rfl
  | cons a tail ih =>
    cases tail with
    | nil =>
      intro _ h2
      cases ha : is_ws a <;> simp [collapse_ws, ha]
      exact (h2 a (List.mem_singleton_self a) ha).symm
    | cons b rest =>
      intro h1 h2
      have hrel := (List.chain'_cons.mp h1).1
      have hab : (is_ws a && is_ws b) = false := by
        cases hwa : is_ws a <;> cases hwb : is_ws b <;> simp
        exact absurd ⟨hwa, hwb⟩ hrel
      have he : collapse_ws (a :: b :: rest) =
          (if is_ws a then ' ' else a) :: collapse_ws (b :: rest) := by
        simp [collapse_ws, hab]
      rw [he, ih (List.chain'_cons.mp h1).2
        (fun c hc hw => h2 c (List.mem_cons_of_mem a hc) hw)]
      cases ha : is_ws a <;> simp [ha]
      exact (h2 a (List.mem_cons_self a (b :: rest)) ha).symm

/-- Stripping preserves the no-adjacent-whitespace invariant. -/
theorem strip_ws_no_adjacent (l : List Char) (h : no_adjacent_ws l) :
    no_adjacent_ws (strip_ws l) := by
  have hsym : ∀ (r : List Char), no_adjacent_ws r → no_adjacent_ws r.reverse := by
    intro r hr
    exact List.chain'_reverse.mpr (hr.imp (fun a b hab hc => hab ⟨hc.2, hc.1⟩))
  have hdw : ∀ (r : List Char), no_adjacent_ws r → no_adjacent_ws (r.dropWhile is_ws) := by
    intro r hr
    obtain ⟨pre, hpre⟩ := exists_append_dropWhile is_ws r
    exact List.Chain'.suffix hr ⟨pre, hpre.symm⟩
  exact hsym _ (hdw _ (hsym _ (hdw _ h)))

/-- Stripping preserves the whitespace-is-space invariant. -/
theorem strip_ws_all_space (l : List Char) (h : all_ws_space l) :
    all_ws_space (strip_ws l) := by
  intro c hc hw
  refine h c ?_ hw
  unfold strip_ws at hc
  rw [List.mem_reverse] at hc
  obtain ⟨pre2, hpre2⟩ := exists_append_dropWhile is_ws (l.dropWhile is_ws).reverse
  have hc2 : c ∈ (l.dropWhile is_ws).reverse := by
    rw [hpre2]; exact List.mem_append_right pre2 hc
  rw [List.mem_reverse] at hc2
  obtain ⟨pre, hpre⟩ := exists_append_dropWhile is_ws l
  rw [hpre]
  exact List.mem_append_right pre hc2

/-- The first character of a stripped list is not whitespace. -/
theorem strip_ws_head_false (l : List Char) :
    ∀ c, (strip_ws l).head? = some c → is_ws c = false := by
  intro c hc
  unfold strip_ws at hc
  rw [List.head?_reverse] at hc
  rcases hu : (l.dropWhile is_ws).reverse.dropWhile is_ws with _ | ⟨u0, urest⟩
  · rw [hu] at hc; cases hc
  · rw [hu] at hc
    obtain ⟨pre, hpre⟩ := exists_append_dropWhile is_ws (l.dropWhile is_ws).reverse
    rw [hu] at hpre
    have hlast : (l.dropWhile is_ws).reverse.getLast? = some c := by
      rw [hpre, List.getLast?_append_of_ne_nil pre (List.cons_ne_nil u0 urest), ← hu, hu]
      exact hc
    rw [List.getLast?_reverse] at hlast
    exact dropWhile_head_false is_ws l c hlast

/-- The last character of a stripped list is not whitespace. -/
theorem strip_ws_getLast_false (l : List Char) :
    ∀ c, (strip_ws l).getLast? = some c → is_ws c = false := by
  intro c hc
  unfold strip_ws at hc
  rw [List.getLast?_reverse] at hc
  exact dropWhile_head_false is_ws (l.dropWhile is_ws).reverse c hc

/-- Stripping is the identity when neither end is whitespace. -/
theorem strip_ws_eq_self (l : List Char)
    (hh : ∀ c, l.head? = some c → is_ws c = false)
    (hl : ∀ c, l.getLast? = some c → is_ws c = false) : strip_ws l = l := by
  unfold strip_ws
  rw [dropWhile_eq_self_of_head is_ws l hh]
  rw [dropWhile_eq_self_of_head is_ws l.reverse
    (fun c hc => hl c (by rw [List.head?_reverse] at hc; exact hc))]
  exact List.reverse_reverse l

/-- The normalized form has no adjacent whitespace. -/
theorem normalize_no_adjacent (l : List Char) :
    no_adjacent_ws (normalize_whitespace l) := by
  unfold normalize_whitespace
  split_ifs with h
  · exact List.chain'_nil
  · exact strip_ws_no_adjacent _ (collapse_ws_no_adjacent l)

/-- All whitespace in the normalized form is a plain space. -/
theorem normalize_all_space (l : List Char) :
    all_ws_space (normalize_whitespace l) := by
  unfold normalize_whitespace
  split_ifs with h
  · intro c hc; cases hc
  · exact strip_ws_all_space _ (collapse_ws_all_space l)

/-- The normalized form does not start with whitespace. -/
theorem normalize_head_false (l : List Char) :
    ∀ c, (normalize_whitespace l).head? = some c → is_ws c = false := by
  unfold normalize_whitespace
  split_ifs with h
  · intro c hc; cases hc
  · exact strip_ws_head_false _

/-- The normalized form does not end with whitespace. -/
theorem normalize_getLast_false (l : List Char) :
    ∀ c, (normalize_whitespace l).getLast? = some c → is_ws c = false := by
  unfold normalize_whitespace
  split_ifs with h
  · intro c hc; cases hc
  · exact strip_ws_getLast_false _

/-- `normalize_whitespace` is idempotent. -/
theorem normalize_whitespace_idem (l : List Char) :
    normalize_whitespace (normalize_whitespace l) = normalize_whitespace l := by
  by_cases h2 : normalize_whitespace l = []
  · rw [h2]; rfl
  · show (if normalize_whitespace l = [] then []
      else strip_ws (collapse_ws (normalize_whitespace l))) = normalize_whitespace l
    rw [if_neg h2,
      collapse_ws_eq_self _ (normalize_no_adjacent l) (normalize_all_space l),
      strip_ws_eq_self _ (normalize_head_false l) (normalize_getLast_false l)]

/-- C10: `normalize_whitespace` is idempotent, and every text produced
by `build_text_lines` is a non-empty fixed point of it (no leading or
trailing whitespace, no two adjacent whitespace characters). -/
theorem normalize_idempotent_and_line_texts :
    (∀ s : List Char,
        normalize_whitespace (normalize_whitespace s) = normalize_whitespace s) ∧
      (∀ (chars : List CharItem) (tl : TextLine), tl ∈ build_text_lines chars →
        tl.text ≠ [] ∧ normalize_whitespace tl.text = tl.text) := by
  refine ⟨normalize_whitespace_idem, ?_⟩
  intro chars tl htl
  unfold build_text_lines at htl
  split_ifs at htl with hc
  · cases htl
  · unfold process_sorted at htl
    obtain ⟨w, hw, hfin⟩ := List.mem_filterMap.mp htl
    unfold finalize_line at hfin
    rcases hI : List.insertionSort (fun a b => a.x ≤ b.x) w.items with _ | ⟨first, rest⟩
    · rw [hI] at hfin; cases hfin
    · rw [hI] at hfin
      dsimp only at hfin
      split_ifs at hfin with ht
      cases Option.some.inj hfin
      exact ⟨ht, normalize_whitespace_idem _⟩

unseal Rat.add Rat.mul Rat.inv Rat.sub in
/-- C10, witness: the line built from the single character item with
text `hi` is a member of the output, and its text is a non-empty fixed
point of `normalize_whitespace`. -/
theorem normalize_idempotent_and_line_texts_witness :
    (⟨['h', 'i'], 0, 0, 5, 10⟩ : TextLine).text ≠ [] ∧
      normalize_whitespace (⟨['h', 'i'], 0, 0, 5, 10⟩ : TextLine).text =
        (⟨['h', 'i'], 0, 0, 5, 10⟩ : TextLine).text :=
  normalize_idempotent_and_line_texts.2 [⟨['h', 'i'], 0, 0, 5, 10⟩]
    ⟨['h', 'i'], 0, 0, 5, 10⟩ (by decide)

/-- The greedy loop preserves pairwise non-overlap of the accumulator. -/
theorem greedy_select_pairwise {α : Type} (overlaps : α → α → Bool) (m : ℤ) :
    ∀ (l acc : List α), List.Pairwise (fun x y => overlaps x y = false) acc →
      List.Pairwise (fun x y => overlaps x y = false) (greedy_select overlaps m acc l) := by
  intro l
  induction l with
  | nil => intro acc h; exact h
  | cons c rest ih =>
    intro acc h
    simp only [greedy_select]
    split_ifs with hany hm hm
    · exact h
    · exact ih acc h
    · refine List.pairwise_append.mpr ⟨h, List.pairwise_singleton _ _, ?_⟩
      intro e he y hy
      cases List.mem_singleton.mp hy
      have hne := (List.any_eq_true.not.mp hany)
      push_neg at hne
      exact Bool.not_eq_true _ ▸ (Bool.eq_false_iff.mpr (hne e he))
    · refine ih _ (List.pairwise_append.mpr ⟨h, List.pairwise_singleton _ _, ?_⟩)
      intro e he y hy
      cases List.mem_singleton.mp hy
      have hne := (List.any_eq_true.not.mp hany)
      push_neg at hne
      exact Bool.not_eq_true _ ▸ (Bool.eq_false_iff.mpr (hne e he))

/-- The greedy loop never grows the selection past a positive cap. -/
theorem greedy_select_length {α : Type} (overlaps : α → α → Bool) (m : ℤ) :
    ∀ (l acc : List α), (acc.length : ℤ) < m →
      ((greedy_select overlaps m acc l).length : ℤ) ≤ m := by
  intro l
  induction l with
  | nil => intro acc h; exact h.le
  | cons c rest ih =>
    intro acc h
    simp only [greedy_select]
    split_ifs with hany hm hm
    · exact h.le
    · exact ih acc h
    · simp only [List.length_append, List.length_singleton] at hm ⊢
      push_cast at hm ⊢; omega
    · refine ih _ ?_
      simp only [List.length_append, List.length_singleton] at hm ⊢
      push_cast at hm ⊢; omega

/-- With a cap of zero, the greedy loop accepts exactly the first
candidate and stops. -/
theorem greedy_select_zero_cons {α : Type} (overlaps : α → α → Bool) (c : α)
    (rest : List α) : greedy_select overlaps 0 [] (c :: rest) = [c] := by
  simp [greedy_select]

/-- C2: overlap suppression, amended.  Every pair of selected text
candidates has IoU at most `0.72`, and every pair of selected image
rectangles has IoU at most `0.85` (the bound is attained, so it is not
strict: see the counterexample). -/
theorem select_overlap_suppression :
    (∀ (text_lines : List TextLine) (W H maxT : ℤ) (pad edge mh : ℚ)
        (mcl minL maxL mctx : ℤ),
      List.Pairwise
        (fun a b => intersection_over_union a.bounds b.bounds ≤ 72/100)
        (select_text_crop_candidates text_lines W H maxT pad edge mh mcl minL maxL mctx)) ∧
      (∀ (sq : ℚ → ℚ) (raws : List Rect) (W H : ℤ) (edge minf maxf : ℚ) (maxC : ℤ),
        List.Pairwise (fun a b => intersection_over_union a b ≤ 85/100)
          (select_image_crop_boxes sq raws W H edge minf maxf maxC)) := by
  constructor
  · intro text_lines W H maxT pad edge mh mcl minL maxL mctx
    simp only [select_text_crop_candidates]
    split_ifs with hif
    · rw [Bool.and_eq_true] at hif
      have hempty := List.isEmpty_iff.mp hif.1
      rw [hempty]
      cases text_fallback W H pad edge mh mctx
          (max 1 ((W : ℚ) * (H : ℚ))) text_lines <;>
        simp [Option.toList]
    · exact (greedy_select_pairwise text_overlaps maxT _ [] List.Pairwise.nil).imp
        (fun hxy => not_lt.mp (decide_eq_false_iff_not.mp
          (by rwa [text_overlaps] at hxy)))
  · intro sq raws W H edge minf maxf maxC
    simp only [select_image_crop_boxes]
    split_ifs with hif
    · rw [Bool.and_eq_true] at hif
      have hempty := List.isEmpty_iff.mp hif.1
      rw [hempty]
      cases image_fallback sq W H edge minf maxf (max 1 ((W : ℚ) * (H : ℚ)))
          (raws.map (fun b => clamp_bounds b W H)) <;>
        simp [Option.toList]
    · exact (greedy_select_pairwise image_overlaps maxC _ [] List.Pairwise.nil).imp
        (fun hxy => not_lt.mp (decide_eq_false_iff_not.mp
          (by rwa [image_overlaps] at hxy)))

unseal Rat.add Rat.mul Rat.inv Rat.sub in
/-- C2, counterexample to the strict bound: two text lines whose
single-line candidates have IoU exactly `0.72` are both accepted
(the code suppresses only IoU strictly above the threshold), and two
image rectangles with IoU exactly `0.85` are likewise both accepted. -/
theorem select_overlap_suppression_counterexample :
    ((select_text_crop_candidates
          [⟨['a', 'b', 'c'], 0, 0, 21, 10⟩, ⟨['a', 'b', 'd'], 3, 0, 22, 10⟩]
          100 100 5 0 0 0 0 1 1 100).map TextCropCandidate.bounds =
        [⟨0, 0, 21, 10⟩, ⟨3, 0, 22, 10⟩] ∧
      ¬ (intersection_over_union ⟨0, 0, 21, 10⟩ ⟨3, 0, 22, 10⟩ < 72/100)) ∧
      (select_image_crop_boxes (fun _ => 0) [⟨0, 0, 18, 18⟩, ⟨1, 0, 19, 18⟩]
          100 100 1 0 1 5 = [⟨1, 0, 19, 18⟩, ⟨0, 0, 18, 18⟩] ∧
        ¬ (intersection_over_union ⟨1, 0, 19, 18⟩ ⟨0, 0, 18, 18⟩ < 85/100)) := by
  exact ⟨⟨by decide, by decide⟩, ⟨by decide, by decide⟩⟩

/-- C7: the per-page caps, amended.  Provided the cap is at least 1,
the text selector returns at most `max_text_crops_per_page` candidates
and the image selector at most `max_crops_per_page` rectangles.  (With
a cap of 0 both still return one item, because the cap is checked only
after an acceptance: see the counterexample and C9.) -/
theorem select_respects_caps :
    (∀ (text_lines : List TextLine) (W H maxT : ℤ) (pad edge mh : ℚ)
        (mcl minL maxL mctx : ℤ), 1 ≤ maxT →
      ((select_text_crop_candidates text_lines W H maxT pad edge mh mcl minL maxL
          mctx).length : ℤ) ≤ maxT) ∧
      (∀ (sq : ℚ → ℚ) (raws : List Rect) (W H : ℤ) (edge minf maxf : ℚ) (maxC : ℤ),
        1 ≤ maxC →
        ((select_image_crop_boxes sq raws W H edge minf maxf maxC).length : ℤ) ≤ maxC) := by
  constructor
  · intro text_lines W H maxT pad edge mh mcl minL maxL mctx hmax
    simp only [select_text_crop_candidates]
    split_ifs with hif
    · rw [Bool.and_eq_true] at hif
      rw [List.isEmpty_iff.mp hif.1]
      cases text_fallback W H pad edge mh mctx
          (max 1 ((W : ℚ) * (H : ℚ))) text_lines <;>
        simp [Option.toList] <;> omega
    · exact greedy_select_length text_overlaps maxT _ [] (by simpa using hmax)
  · intro sq raws W H edge minf maxf maxC hmax
    simp only [select_image_crop_boxes]
    split_ifs with hif
    · rw [Bool.and_eq_true] at hif
      rw [List.isEmpty_iff.mp hif.1]
      cases image_fallback sq W H edge minf maxf (max 1 ((W : ℚ) * (H : ℚ)))
          (raws.map (fun b => clamp_bounds b W H)) <;>
        simp [Option.toList] <;> omega
    · exact greedy_select_length image_overlaps maxC _ [] (by simpa using hmax)

unseal Rat.add Rat.mul Rat.inv Rat.sub in
/-- C7, counterexample: with a cap of 0 and one surviving candidate,
the text selector returns one candidate, not at most zero, because the
cap is only checked after an acceptance. -/
theorem select_respects_caps_counterexample :
    ¬ (((select_text_crop_candidates [⟨['q', 'r', 's'], 0, 0, 50, 20⟩]
        100 100 0 0 0 0 0 1 1 100).length : ℤ) ≤ 0) := by
  decide

unseal Rat.add Rat.mul Rat.inv Rat.sub in
/-- C7, witness: the amended theorem applied with caps of 1. -/
theorem select_respects_caps_witness :
    ((select_text_crop_candidates [⟨['q', 'r', 's'], 0, 0, 50, 20⟩]
        100 100 1 0 0 0 0 1 1 100).length : ℤ) ≤ 1 ∧
      ((select_image_crop_boxes (fun _ => 0) [⟨0, 0, 50, 50⟩]
        100 100 10 0 1 1).length : ℤ) ≤ 1 :=
  ⟨select_respects_caps.1 [⟨['q', 'r', 's'], 0, 0, 50, 20⟩]
      100 100 1 0 0 0 0 1 1 100 (by decide),
    select_respects_caps.2 (fun _ => 0) [⟨0, 0, 50, 50⟩]
      100 100 10 0 1 1 (by decide)⟩

/-- C9: with a per-page cap of zero and at least one candidate
surviving filtering, each selector still returns exactly one item,
because the cap is checked only after an acceptance. -/
theorem select_zero_cap_returns_one :
    (∀ (text_lines : List TextLine) (W H : ℤ) (pad edge mh : ℚ)
        (mcl minL maxL mctx : ℤ),
      raw_text_candidates W H pad edge mh mcl minL maxL mctx
          (max 1 ((W : ℚ) * (H : ℚ))) text_lines ≠ [] →
      (select_text_crop_candidates text_lines W H 0 pad edge mh mcl minL maxL
          mctx).length = 1) ∧
      (∀ (sq : ℚ → ℚ) (raws : List Rect) (W H : ℤ) (edge minf maxf : ℚ),
        image_filtered_boxes raws W H edge minf maxf (max 1 ((W : ℚ) * (H : ℚ))) ≠ [] →
        (select_image_crop_boxes sq raws W H edge minf maxf 0).length = 1) := by
  constructor
  · intro text_lines W H pad edge mh mcl minL maxL mctx hraw
    simp only [select_text_crop_candidates]
    rcases hs : List.insertionSort score_ge
        (raw_text_candidates W H pad edge mh mcl minL maxL mctx
          (max 1 ((W : ℚ) * (H : ℚ))) text_lines) with _ | ⟨c, rest⟩
    · exact absurd (List.length_eq_zero.mp
        ((List.perm_insertionSort score_ge _).symm.length_eq.trans
          (by rw [hs]; rfl))) hraw
    · rw [greedy_select_zero_cons]
      simp [List.isEmpty]
  · intro sq raws W H edge minf maxf hfil
    simp only [select_image_crop_boxes]
    unfold image_filtered_boxes at hfil
    rcases hs : List.insertionSort image_area_ge
        ((raws.map (fun b => clamp_bounds b W H)).filter
          (image_box_passes (max 1 ((W : ℚ) * (H : ℚ))) edge minf maxf)) with _ | ⟨c, rest⟩
    · exact absurd (List.length_eq_zero.mp
        ((List.perm_insertionSort image_area_ge _).symm.length_eq.trans
          (by rw [hs]; rfl))) hfil
    · rw [greedy_select_zero_cons]
      simp [List.isEmpty]

unseal Rat.add Rat.mul Rat.inv Rat.sub in
/-- C9, witness: one line (respectively one rectangle) surviving the
filters with a cap of zero yields exactly one selected item. -/
theorem select_zero_cap_returns_one_witness :
    (select_text_crop_candidates [⟨['a', 'b', 'c'], 0, 0, 50, 20⟩]
        100 100 0 0 0 0 0 1 1 100).length = 1 ∧
      (select_image_crop_boxes (fun _ => 0) [⟨0, 0, 50, 50⟩]
        100 100 10 0 1 0).length = 1 :=
  ⟨select_zero_cap_returns_one.1 [⟨['a', 'b', 'c'], 0, 0, 50, 20⟩]
      100 100 0 0 0 0 1 1 100 (by decide),
    select_zero_cap_returns_one.2 (fun _ => 0) [⟨0, 0, 50, 50⟩]
      100 100 10 0 1 (by decide)⟩

/-- C3: fallback non-emptiness.  Given at least one text line, and
thresholds admitting the single-line fallback (its final area check
passes), the text selector returns at least one candidate; given at
least one raw image rectangle, and thresholds admitting the
largest-clamped-rectangle fallback, the image selector returns at
least one rectangle. -/
theorem selectors_fallback_nonempty :
    (∀ (text_lines : List TextLine) (W H maxT : ℤ) (pad edge mh : ℚ)
        (mcl minL maxL mctx : ℤ), text_lines ≠ [] →
      (text_fallback W H pad edge mh mctx (max 1 ((W : ℚ) * (H : ℚ)))
          text_lines).isSome = true →
      select_text_crop_candidates text_lines W H maxT pad edge mh mcl minL maxL mctx ≠ []) ∧
      (∀ (sq : ℚ → ℚ) (raws : List Rect) (W H : ℤ) (edge minf maxf : ℚ) (maxC : ℤ),
        raws ≠ [] →
        (image_fallback sq W H edge minf maxf (max 1 ((W : ℚ) * (H : ℚ)))
            (raws.map (fun b => clamp_bounds b W H))).isSome = true →
        select_image_crop_boxes sq raws W H edge minf maxf maxC ≠ []) := by
  constructor
  · intro text_lines W H maxT pad edge mh mcl minL maxL mctx hlines hfb
    simp only [select_text_crop_candidates]
    split_ifs with hif
    · intro hcon
      rcases List.append_eq_nil.mp hcon with ⟨_, htl⟩
      rcases hfb2 : text_fallback W H pad edge mh mctx
          (max 1 ((W : ℚ) * (H : ℚ))) text_lines with _ | x
      · rw [hfb2] at hfb; cases hfb
      · rw [hfb2] at htl; cases htl
    · intro hcon
      rw [hcon] at hif
      cases text_lines with
      | nil => exact absurd rfl hlines
      | cons a t => exact hif (by simp)
  · intro sq raws W H edge minf maxf maxC hraws hfb
    simp only [select_image_crop_boxes]
    split_ifs with hif
    · intro hcon
      rcases List.append_eq_nil.mp hcon with ⟨_, htl⟩
      rcases hfb2 : image_fallback sq W H edge minf maxf
          (max 1 ((W : ℚ) * (H : ℚ))) (raws.map (fun b => clamp_bounds b W H)) with _ | x
      · rw [hfb2] at hfb; cases hfb
      · rw [hfb2] at htl; cases htl
    · intro hcon
      rw [hcon] at hif
      cases raws with
      | nil => exact absurd rfl hraws
      | cons a t => exact hif (by simp)

unseal Rat.add Rat.mul Rat.inv Rat.sub in
/-- C3, witness: a page with one short line whose expanded fallback
block passes the area check yields a text crop, and a small image
rectangle rejected by the minimum-edge filter still yields an image
crop through the fallback. -/
theorem selectors_fallback_nonempty_witness :
    select_text_crop_candidates [⟨['h', 'e', 'l', 'l', 'o'], 10, 10, 50, 10⟩]
        100 100 6 2 20 30 28 2 6 100 ≠ [] ∧
      select_image_crop_boxes (fun _ => 0) [⟨0, 0, 5, 5⟩]
        100 100 10 (5/1000) 1 4 ≠ [] :=
  ⟨selectors_fallback_nonempty.1 [⟨['h', 'e', 'l', 'l', 'o'], 10, 10, 50, 10⟩]
      100 100 6 2 20 30 28 2 6 100 (by decide) (by decide),
    selectors_fallback_nonempty.2 (fun _ => 0) [⟨0, 0, 5, 5⟩]
      100 100 10 (5/1000) 1 4 (by decide) (by decide)⟩

instance : IsTotal CharItem char_le := by
  constructor
  intro a b
  unfold char_le
  rcases lt_trichotomy a.y b.y with h | h | h
  · exact Or.inl (Or.inl h)
  · rcases le_total a.x b.x with hx | hx
    · exact Or.inl (Or.inr ⟨h, hx⟩)
    · exact Or.inr (Or.inr ⟨h.symm, hx⟩)
  · exact Or.inr (Or.inl h)

instance : IsTrans CharItem char_le := by
  constructor
  intro a b c hab hbc
  unfold char_le at *
  rcases hab with hab | ⟨hy1, hx1⟩
  · rcases hbc with hbc | ⟨hy2, hx2⟩
    · exact Or.inl (hab.trans hbc)
    · exact Or.inl (hy2 ▸ hab)
  · rcases hbc with hbc | ⟨hy2, hx2⟩
    · exact Or.inl (hy1 ▸ hbc)
    · exact Or.inr ⟨hy1.trans hy2, hx1.trans hx2⟩

/-- Two characters below each other in both directions of the sort
order share the sort key `(y, x)`. -/
theorem char_le_antisymm_key (a b : CharItem) (hab : char_le a b) (hba : char_le b a) :
    (a.y, a.x) = (b.y, b.x) := by
  unfold char_le at hab hba
  rcases hab with hab | ⟨hy1, hx1⟩ <;> rcases hba with hba | ⟨hy2, hx2⟩
  · exact absurd hba (not_lt.mpr hab.le)
  · exact absurd hab (not_lt.mpr hy2.le)
  · exact absurd hba (not_lt.mpr hy1.le)
  · exact Prod.ext hy1 (le_antisymm hx1 hx2)

/-- Two sorted lists that are permutations of each other and have
pairwise-distinct sort keys are equal. -/
theorem sorted_eq_of_perm_nodup_key :
    ∀ l1 l2 : List CharItem, l1.Perm l2 → l1.Sorted char_le → l2.Sorted char_le →
      (l1.map (fun c => (c.y, c.x))).Nodup → l1 = l2 := by
  intro l1
  induction l1 with
  | nil => intro l2 hp _ _ _; exact hp.nil_eq
  | cons a t1 ih =>
    intro l2 hp hs1 hs2 hnd
    cases l2 with
    | nil => exact absurd hp.eq_nil (List.cons_ne_nil a t1)
    | cons b t2 =>
      by_cases hab : a = b
      · subst hab
        have ht := ih t2 (hp.cons_inv) (List.sorted_cons.mp hs1).2
          (List.sorted_cons.mp hs2).2 ?_
        · rw [ht]
        · rw [List.map_cons] at hnd
          exact (List.nodup_cons.mp hnd).2
      · exfalso
        have hb1 : b ∈ t1 := by
          rcases List.mem_cons.mp (hp.symm.subset (List.mem_cons_self b t2)) with h | h
          · exact absurd h.symm hab
          · exact h
        have ha2 : a ∈ t2 := by
          rcases List.mem_cons.mp (hp.subset (List.mem_cons_self a t1)) with h | h
          · exact absurd h hab
          · exact h
        have hkey : (a.y, a.x) = (b.y, b.x) :=
          char_le_antisymm_key a b ((List.sorted_cons.mp hs1).1 b hb1)
            ((List.sorted_cons.mp hs2).1 a ha2)
        rw [List.map_cons] at hnd
        exact (List.nodup_cons.mp hnd).1
          (hkey ▸ List.mem_map_of_mem (fun c => (c.y, c.x)) hb1)

/-- C4: permutation invariance of `build_text_lines`, amended.  When
no two characters share the same `(y, x)` position, any two
permutations of the character list produce identical text lines.  (With
duplicated positions the stable sort preserves input order and the
outcome can differ: see the counterexample.) -/
theorem build_text_lines_perm_invariant (l1 l2 : List CharItem) (hp : l1.Perm l2)
    (hnd : (l1.map (fun c => (c.y, c.x))).Nodup) :
    build_text_lines l1 = build_text_lines l2 := by
  unfold build_text_lines
  by_cases h1 : l1 = []
  · subst h1
    rw [if_pos rfl, if_pos hp.nil_eq.symm]
  · have h2 : l2 ≠ [] := fun he => h1 (by rw [he] at hp; exact hp.eq_nil)
    rw [if_neg h1, if_neg h2]
    congr 1
    refine sorted_eq_of_perm_nodup_key _ _
      ((List.perm_insertionSort char_le l1).trans
        (hp.trans (List.perm_insertionSort char_le l2).symm))
      (List.sorted_insertionSort char_le l1) (List.sorted_insertionSort char_le l2) ?_
    exact ((List.perm_insertionSort char_le l1).map (fun c => (c.y, c.x))).nodup_iff.mpr hnd

unseal Rat.add Rat.mul Rat.inv Rat.sub in
/-- C4, witness: two characters at distinct positions produce the same
lines in either input order. -/
theorem build_text_lines_perm_invariant_witness :
    build_text_lines [⟨['x'], 0, 0, 4, 8⟩, ⟨['y'], 10, 0, 4, 8⟩] =
      build_text_lines [⟨['y'], 10, 0, 4, 8⟩, ⟨['x'], 0, 0, 4, 8⟩] :=
  build_text_lines_perm_invariant _ _
    (List.Perm.swap (⟨['y'], 10, 0, 4, 8⟩ : CharItem) ⟨['x'], 0, 0, 4, 8⟩ []) (by decide)

unseal Rat.add Rat.mul Rat.inv Rat.sub in
/-- C4, counterexample: two characters sharing the same `(y, x)`
position.  The two input orders are permutations of each other, yet
the reconstructed line text is `ab` in one order and `ba` in the
other, so the clustering outcome is not order-independent. -/
theorem build_text_lines_order_counterexample :
    List.Perm [(⟨['a'], 0, 0, 5, 10⟩ : CharItem), ⟨['b'], 0, 0, 5, 10⟩]
        [⟨['b'], 0, 0, 5, 10⟩, ⟨['a'], 0, 0, 5, 10⟩] ∧
      (build_text_lines [⟨['a'], 0, 0, 5, 10⟩, ⟨['b'], 0, 0, 5, 10⟩]).map TextLine.text =
        [['a', 'b']] ∧
      (build_text_lines [⟨['b'], 0, 0, 5, 10⟩, ⟨['a'], 0, 0, 5, 10⟩]).map TextLine.text =
        [['b', 'a']] ∧
      (['a', 'b'] : List Char) ≠ ['b', 'a'] :=
  ⟨List.Perm.swap (⟨['b'], 0, 0, 5, 10⟩ : CharItem) ⟨['a'], 0, 0, 5, 10⟩ [],
    by decide, by decide, by decide⟩

end PdfAssets
